import Mathlib

/-!
Shallow embedding of the reconciliation core of `sync/sync.go`
(`Tailscale2Cloudflare` and `v4Addresses`).  HTTP transport, JSON decoding
and logging are external collaborators; the embedding covers the pure
pipeline: building the desired mapping from the device roster, grouping
records, computing the change set, and the mutation calls that would be
issued when every provider response succeeds.
-/

namespace Sync

/-- Models `tailnetDevice` (sync.go lines 22-28): the fields the program
reads from the device roster. -/
structure TailnetDevice where
  name : String
  hostname : String
  addresses : List String
  authorized : Bool
deriving DecidableEq

/-- Models `dnsRecord` (sync.go lines 37-43).  The Go field `Type` is
embedded as `rtype`. -/
structure DNSRecord where
  id : String
  rtype : String
  name : String
  content : String
  zoneName : String
deriving DecidableEq

/-- Character-level prefix stripping: `some rest` when `p` is a prefix of
the second list, `none` otherwise. -/
def stripPrefixChars : List Char → List Char → Option (List Char)
  | [], s => some s
  | _ :: _, [] => none
  | p :: ps, c :: cs => if p = c then stripPrefixChars ps cs else none

/-- Fuel-indexed worker for `strings.Replace(s, old, "", 1)`: removes the
first occurrence of the pattern.  The fuel is the length of the scanned
list, which bounds the recursion. -/
def replaceFirstAux (pattern : List Char) : Nat → List Char → List Char
  | 0, s => s
  | _ + 1, [] => []
  | fuel + 1, c :: cs =>
    match stripPrefixChars pattern (c :: cs) with
    | some rest => rest
    | none => c :: replaceFirstAux pattern fuel cs

/-- Models `strings.Replace(s, pattern, "", 1)` (sync.go line 92). -/
def replaceFirst (s pattern : String) : String :=
  ⟨replaceFirstAux pattern.data s.data.length s.data⟩

/-- Fuel-indexed worker for `strings.ReplaceAll(s, pattern, "")`: removes
every non-overlapping occurrence, scanning left to right. -/
def replaceAllAux (pattern : List Char) : Nat → List Char → List Char
  | 0, s => s
  | _ + 1, [] => []
  | fuel + 1, c :: cs =>
    match stripPrefixChars pattern (c :: cs) with
    | some rest => replaceAllAux pattern fuel rest
    | none => c :: replaceAllAux pattern fuel cs

/-- Models `strings.ReplaceAll(s, pattern, "")` (sync.go line 166). -/
def replaceAll (s pattern : String) : String :=
  ⟨replaceAllAux pattern.data s.data.length s.data⟩

/-- Models `strings.HasSuffix` (sync.go line 165). -/
def strEndsWith (s suffix : String) : Bool :=
  suffix.data.isSuffixOf s.data

/-- Splitting on the dot character, as `strings.Split(s, ".")` does for a
one-character separator; used by the IPv4 literal check. -/
def splitOnDot : List Char → List (List Char)
  | [] => [[]]
  | c :: cs =>
    if c = '.' then [] :: splitOnDot cs
    else
      match splitOnDot cs with
      | [] => [[c]]
      | p :: ps => (c :: p) :: ps

/-- Numeric value of a decimal digit run. -/
def partVal (cs : List Char) : Nat :=
  cs.foldl (fun n c => n * 10 + (c.toNat - 48)) 0

/-- Validity of one dotted-quad field: one to three decimal digits, no
leading zero on a multi-digit field, value at most 255. -/
def isIPv4Part (cs : List Char) : Bool :=
  !cs.isEmpty && decide (cs.length ≤ 3)
    && cs.all (fun c => 48 ≤ c.toNat && c.toNat ≤ 57)
    && (decide (cs.length = 1) || !(cs.head? == some '0'))
    && decide (partVal cs ≤ 255)

/-- Models the library collaborator `netaddr.ParseIP` followed by `Is4`
(sync.go lines 266-271): the address strings kept by `v4Addresses` are
exactly the valid dotted-quad IPv4 literals. -/
def isIPv4 (s : String) : Bool :=
  match splitOnDot s.data with
  | [a, b, c, d] => isIPv4Part a && isIPv4Part b && isIPv4Part c && isIPv4Part d
  | _ => false

/-- Models `v4Addresses` (sync.go lines 263-276): keeps, in order, the
addresses that parse as IPv4; parse failures are only warned about.  The
Go function returns a nil slice exactly when the result is empty. -/
def v4Addresses (addrs : List String) : List String :=
  addrs.filter isIPv4

/-- Association-list model of a Go `map[string]V`: entries in insertion
order, keys unique. -/
def lookup {α : Type} : List (String × α) → String → Option α
  | [], _ => none
  | (k, v) :: rest, key => if k = key then some v else lookup rest key

/-- Go map assignment `m[k] = v`: replaces the value in place when the key
exists, otherwise adds a new entry. -/
def upsert {α : Type} : List (String × α) → String → α → List (String × α)
  | [], k, v => [(k, v)]
  | (k0, v0) :: rest, k, v =>
    if k0 = k then (k, v) :: rest else (k0, v0) :: upsert rest k v

/-- Go `m[k] = append(m[k], v)`: appends to the entry's slice, creating
the entry when absent. -/
def appendAt {α : Type} : List (String × List α) → String → α → List (String × List α)
  | [], k, v => [(k, [v])]
  | (k0, vs) :: rest, k, v =>
    if k0 = k then (k0, vs ++ [v]) :: rest else (k0, vs) :: appendAt rest k v

/-- Models the identifier choice (sync.go lines 87-94): the raw hostname
in legacy mode, else the composite name with the first occurrence of
`"." ++ tailnet` removed. -/
def deviceName (useHostnames : Bool) (tailnet : String) (d : TailnetDevice) : String :=
  if useHostnames then d.hostname else replaceFirst d.name ("." ++ tailnet)

/-- Models the fixed deny-list switch (sync.go lines 104-107). -/
def denyListed (name : String) : Bool :=
  name == "hello.ipn.dev" || name == "hello.tailscale.com"

/-- One iteration of the device loop (sync.go lines 82-109): unauthorized
devices are skipped, deny-listed names are skipped, otherwise the map is
assigned (last write wins on duplicate names). -/
def buildStep (useHostnames : Bool) (tailnet : String)
    (m : List (String × List String)) (d : TailnetDevice) : List (String × List String) :=
  let nm := deviceName useHostnames tailnet d
  if !d.authorized then m
  else if denyListed nm then m
  else upsert m nm (v4Addresses d.addresses)

/-- Models the `name2IPv4s` map built by the device loop. -/
def buildName2IPv4s (useHostnames : Bool) (tailnet : String)
    (devices : List TailnetDevice) : List (String × List String) :=
  devices.foldl (buildStep useHostnames tailnet) []

/-- Models the Go test `name2IPv4s[stripped] == nil` (sync.go line 167):
true when the key is absent, and also when the key is present with a nil
slice — `v4Addresses` yields nil exactly when no address survives, so an
empty list stands for nil. -/
def lookupIsNil (m : List (String × List String)) (k : String) : Bool :=
  match lookup m k with
  | none => true
  | some v => v.isEmpty

/-- Models the suffix computation (sync.go lines 156-160). -/
def recordSuffix (subdomain zoneName : String) : String :=
  if subdomain ≠ "" then subdomain ++ "." ++ zoneName else zoneName

/-- Models `strings.ReplaceAll(record.Name, "."+recordSuffix, "")`
(sync.go line 166). -/
def strippedName (suffix name : String) : String :=
  replaceAll name ("." ++ suffix)

/-- One iteration of the delete-detection part of the record loop
(sync.go lines 165-170). -/
def deleteStep (mapping : List (String × List String)) (suffix : String)
    (td : List (String × List String)) (r : DNSRecord) : List (String × List String) :=
  if strEndsWith r.name suffix then
    if lookupIsNil mapping (strippedName suffix r.name) then appendAt td r.name r.id
    else td
  else td

/-- Models the `toDelete` map produced by the record loop.  The Go loop
builds `recordsByName` and `toDelete` in a single pass over the records;
the two accumulators never read each other, so two passes are an
equivalent embedding. -/
def computeToDelete (mapping : List (String × List String)) (suffix : String)
    (records : List DNSRecord) : List (String × List String) :=
  records.foldl (deleteStep mapping suffix) []

/-- One iteration of the grouping part of the record loop (sync.go
line 163). -/
def groupStep (m : List (String × List DNSRecord)) (r : DNSRecord) :
    List (String × List DNSRecord) :=
  appendAt m r.name r

/-- Models the `recordsByName` grouping. -/
def computeRecordsByName (records : List DNSRecord) : List (String × List DNSRecord) :=
  records.foldl groupStep []

/-- Outcomes on which `Tailscale2Cloudflare` stops before mutating:
`zoneNameTODO` is the error returned when zero records were fetched
(sync.go lines 152-154), `multiRecordTODO` the error for a desired name
with other than one existing record (sync.go line 184), and
`panicIndexOutOfRange` models the Go runtime panic raised by `ipv4s[0]`
when the filtered address list is empty (sync.go line 177). -/
inductive SyncError where
  | zoneNameTODO : SyncError
  | multiRecordTODO (hostname recordName : String) : SyncError
  | panicIndexOutOfRange (hostname : String) : SyncError
deriving DecidableEq

/-- Models the desired-mapping loop (sync.go lines 172-190), folding over
the mapping entries and accumulating `(toUpdate, toCreate)`.  A nil group
lookup queues a create; a single record is compared against the first
desired address (a Go panic when the list is empty); any other group
length returns the multi-record error. -/
def diffDesired (byName : List (String × List DNSRecord)) (suffix : String) :
    List (String × List String) →
    List (String × List String) × List (String × List String) →
    Except SyncError (List (String × List String) × List (String × List String))
  | [], acc => .ok acc
  | (hostname, ipv4s) :: rest, (toUpdate, toCreate) =>
    match lookup byName (hostname ++ "." ++ suffix) with
    | some existing =>
      match existing with
      | [r0] =>
        match ipv4s with
        | [] => .error (.panicIndexOutOfRange hostname)
        | a0 :: _ =>
          if r0.content ≠ a0 then
            diffDesired byName suffix rest (upsert toUpdate r0.id ipv4s, toCreate)
          else
            diffDesired byName suffix rest (toUpdate, toCreate)
      | _ => .error (.multiRecordTODO hostname (hostname ++ "." ++ suffix))
    | none => diffDesired byName suffix rest (toUpdate, upsert toCreate (hostname ++ "." ++ suffix) ipv4s)

/-- Models the change set logged at sync.go lines 191-195. -/
structure ChangeSet where
  toUpdate : List (String × List String)
  toCreate : List (String × List String)
  toDelete : List (String × List String)
deriving DecidableEq

/-- Models the pure reconciliation core of `Tailscale2Cloudflare`
(sync.go lines 79-195): builds the desired mapping, fails on zero fetched
records, otherwise computes the change set from the zone name skimmed off
the first record. -/
def reconcile (useHostnames : Bool) (tailnet subdomain : String)
    (devices : List TailnetDevice) :
    List DNSRecord → Except SyncError ChangeSet
  | [] => .error .zoneNameTODO
  | r0 :: rs =>
    match diffDesired (computeRecordsByName (r0 :: rs)) (recordSuffix subdomain r0.zoneName)
        (buildName2IPv4s useHostnames tailnet devices) ([], []) with
    | .ok (tu, tc) =>
      .ok ⟨tu, tc,
        computeToDelete (buildName2IPv4s useHostnames tailnet devices)
          (recordSuffix subdomain r0.zoneName) (r0 :: rs)⟩
    | .error e => .error e

/-- Provider calls the mutation phase can issue.  The `update` form never
occurs in the output; it is present so that its absence is expressible
(sync.go line 235 is only a TODO comment). -/
inductive MutationCall where
  | create (rtype recordName content : String) (ttl : Nat) (proxied : Bool) : MutationCall
  | update (recordID : String) (contents : List String) : MutationCall
  | delete (recordID : String) : MutationCall
deriving DecidableEq

/-- Models the create loop (sync.go lines 202-234): one POST per address
of every `toCreate` entry, with type "A", ttl 1 and proxying disabled. -/
def createCalls (toCreate : List (String × List String)) : List MutationCall :=
  toCreate.foldl (fun acc p => acc ++ p.2.map (fun ipv4 => .create "A" p.1 ipv4 1 false)) []

/-- Models the delete loop (sync.go lines 237-259): one DELETE per queued
record id. -/
def deleteCalls (toDelete : List (String × List String)) : List MutationCall :=
  toDelete.foldl (fun acc p => acc ++ p.2.map (fun rid => .delete rid)) []

/-- Calls issued by the mutation phase when every provider response is a
success: the create loop runs before the delete loop, and `toUpdate` is
never consulted. -/
def mutationCalls (cs : ChangeSet) : List MutationCall :=
  createCalls cs.toCreate ++ deleteCalls cs.toDelete

/-- Models a whole run under always-successful provider responses: the
first component is the list of mutation calls issued, the second the
error the run returns, if any.  A reconciliation error issues no calls
(the mutation loops come after the diff), and a dry run stops after
logging (sync.go lines 198-200). -/
def run (dryRun useHostnames : Bool) (tailnet subdomain : String)
    (devices : List TailnetDevice) (records : List DNSRecord) :
    List MutationCall × Option SyncError :=
  match reconcile useHostnames tailnet subdomain devices records with
  | .error e => ([], some e)
  | .ok cs => if dryRun then ([], none) else (mutationCalls cs, none)

/-- Record ids queued for deletion under a given record name. -/
def delIds (td : List (String × List String)) (n : String) : List String :=
  (lookup td n).getD []

/-- Keys of an association-list map, in order. -/
def keys {α : Type} (m : List (String × α)) : List String :=
  m.map Prod.fst

/-- Equality of run outcomes is decidable. -/
instance {e a : Type} [DecidableEq e] [DecidableEq a] : DecidableEq (Except e a) := fun x y =>
  match x, y with
  | .ok u, .ok v =>
    match decEq u v with
    | isTrue h => isTrue (by rw [h])
    | isFalse h => isFalse (fun hc => h (by injection hc))
  | .ok _, .error _ => isFalse (fun hc => Except.noConfusion hc)
  | .error _, .ok _ => isFalse (fun hc => Except.noConfusion hc)
  | .error u, .error v =>
    match decEq u v with
    | isTrue h => isTrue (by rw [h])
    | isFalse h => isFalse (fun hc => h (by injection hc))

/-- Concrete authorized device `node-a` with one IPv4 address. -/
def devNodeA : TailnetDevice := ⟨"node-a.tailnet", "node-a", ["10.0.0.1"], true⟩

/-- Concrete authorized device `node-a` whose only address fails to parse,
so its filtered IPv4 list is empty. -/
def devNodeANoV4 : TailnetDevice := ⟨"node-a.tailnet", "node-a", ["not-an-ip"], true⟩

/-- Concrete record matching `node-a` under suffix `tailnet.example.com`. -/
def recNodeA : DNSRecord :=
  ⟨"abc", "A", "node-a.tailnet.example.com", "10.0.0.1", "tailnet.example.com"⟩

/-- Concrete second record sharing the name of `recNodeA`. -/
def recNodeADup : DNSRecord :=
  ⟨"abd", "A", "node-a.tailnet.example.com", "10.0.0.9", "tailnet.example.com"⟩

/-- Concrete record outside the suffix, supplying the zone name. -/
def recOutside : DNSRecord :=
  ⟨"zzz", "A", "unrelated.example.net", "1.1.1.1", "tailnet.example.com"⟩

/-- Concrete pair of records sharing the name `x.zone`, which matches no
device. -/
def recX1 : DNSRecord := ⟨"r1", "A", "x.zone", "1.2.3.4", "zone"⟩

/-- Second record of the `x.zone` pair. -/
def recX2 : DNSRecord := ⟨"r2", "A", "x.zone", "1.2.3.5", "zone"⟩

/-- Concrete duplicate-identifier devices: both normalize to `dup`. -/
def devDup1 : TailnetDevice := ⟨"dup.tailnet", "dup", ["10.0.0.1"], true⟩

/-- Second duplicate-identifier device. -/
def devDup2 : TailnetDevice := ⟨"dup.tailnet", "dup", ["10.0.0.2"], true⟩

/-- Concrete unauthorized device normalizing to `node-a`. -/
def devNodeAUnauth : TailnetDevice := ⟨"node-a.tailnet", "node-a", ["10.9.9.9"], false⟩

/-- Recognizer for the update form of a mutation call. -/
def isUpdate : MutationCall → Bool
  | .update _ _ => true
  | _ => false

end Sync

namespace Sync

theorem lookup_upsert {α : Type} (m : List (String × α)) (k k' : String) (v : α) :
    lookup (upsert m k v) k' = if k = k' then some v else lookup m k' := by
  induction m with
  | nil => simp [upsert, lookup]
  | cons p rest ih =>
    obtain ⟨k0, v0⟩ := p
    by_cases h0 : k0 = k
    · subst h0
      by_cases h1 : k0 = k' <;> simp [upsert, lookup, h1]
    · by_cases h1 : k0 = k'
      · subst h1
        have : ¬ k = k0 := fun h => h0 h.symm
        simp [upsert, lookup, h0, this]
      · simp [upsert, lookup, h0, h1, ih]

theorem lookup_appendAt {α : Type} (m : List (String × List α)) (k k' : String) (v : α) :
    lookup (appendAt m k v) k' =
      if k = k' then some ((lookup m k).getD [] ++ [v]) else lookup m k' := by
  induction m with
  | nil => by_cases h : k = k' <;> simp [appendAt, lookup, h]
  | cons p rest ih =>
    obtain ⟨k0, vs⟩ := p
    by_cases h0 : k0 = k
    · subst h0
      by_cases h1 : k0 = k' <;> simp [appendAt, lookup, h1]
    · by_cases h1 : k0 = k'
      · subst h1
        have : ¬ k = k0 := fun h => h0 h.symm
        simp [appendAt, lookup, h0, this]
      · simp [appendAt, lookup, h0, h1, ih]

theorem lookup_mem {α : Type} {m : List (String × α)} {k : String} {v : α}
    (h : lookup m k = some v) : (k, v) ∈ m := by
  induction m with
  | nil => simp [lookup] at h
  | cons p rest ih =>
    obtain ⟨k0, v0⟩ := p
    by_cases h0 : k0 = k
    · subst h0
      simp [lookup] at h
      simp [h]
    · simp [lookup, h0] at h
      exact List.mem_cons_of_mem _ (ih h)

end Sync

namespace Sync

theorem delIds_appendAt (td : List (String × List String)) (k n v : String) :
    delIds (appendAt td k v) n = if k = n then delIds td k ++ [v] else delIds td n := by
  unfold delIds
  rw [lookup_appendAt]
  by_cases h : k = n <;> simp [h]

theorem lookup_foldl_groupStep (rs : List DNSRecord) (n : String) :
    ∀ m : List (String × List DNSRecord),
    lookup (rs.foldl groupStep m) n =
      match lookup m n with
      | some l => some (l ++ rs.filter (fun r => decide (r.name = n)))
      | none =>
        if (rs.filter (fun r => decide (r.name = n))).isEmpty then none
        else some (rs.filter (fun r => decide (r.name = n))) := by
  induction rs with
  | nil =>
    intro m
    cases h : lookup m n <;> simp [h]
  | cons r rs ih =>
    intro m
    simp only [List.foldl_cons]
    rw [ih]
    rw [show groupStep m r = appendAt m r.name r from rfl]
    rw [lookup_appendAt]
    by_cases hn : r.name = n
    · subst hn
      simp only [if_pos rfl, List.filter_cons, decide_True, if_pos]
      cases h : lookup m r.name <;> simp [h]
    · rw [if_neg hn]
      cases h : lookup m n <;> simp [h, hn, List.filter_cons]

end Sync

namespace Sync

theorem mem_delIds_foldl (mapping : List (String × List String)) (suffix : String)
    (rs : List DNSRecord) (n i : String) :
    ∀ td, i ∈ delIds (rs.foldl (deleteStep mapping suffix) td) n ↔
      (i ∈ delIds td n ∨ ∃ r ∈ rs, r.name = n ∧ r.id = i ∧
        strEndsWith r.name suffix = true ∧
        lookupIsNil mapping (strippedName suffix r.name) = true) := by
  induction rs with
  | nil =>
    intro td
    simp
  | cons r rs ih =>
    intro td
    simp only [List.foldl_cons]
    rw [ih]
    have hstep : i ∈ delIds (deleteStep mapping suffix td r) n ↔
        (i ∈ delIds td n ∨ (r.name = n ∧ r.id = i ∧ strEndsWith r.name suffix = true ∧
          lookupIsNil mapping (strippedName suffix r.name) = true)) := by
      unfold deleteStep
      by_cases hE : strEndsWith r.name suffix = true
      · by_cases hN : lookupIsNil mapping (strippedName suffix r.name) = true
        · rw [if_pos hE, if_pos hN, delIds_appendAt]
          by_cases hn : r.name = n
          · subst hn
            simp [hE, hN, or_comm, eq_comm]
          · simp [hn, hE, hN]
        · rw [if_pos hE, if_neg hN]
          simp [hN]
      · rw [if_neg hE]
        simp [hE]
    rw [hstep]
    simp only [List.exists_mem_cons_iff]
    tauto

theorem lookup_foldl_deleteStep_none (mapping : List (String × List String)) (suffix : String)
    (rs : List DNSRecord) (n : String) (hs : strEndsWith n suffix = false) :
    ∀ td, lookup td n = none → lookup (rs.foldl (deleteStep mapping suffix) td) n = none := by
  induction rs with
  | nil =>
    intro td h
    simpa using h
  | cons r rs ih =>
    intro td h
    simp only [List.foldl_cons]
    apply ih
    unfold deleteStep
    by_cases hE : strEndsWith r.name suffix = true
    · by_cases hN : lookupIsNil mapping (strippedName suffix r.name) = true
      · rw [if_pos hE, if_pos hN, lookup_appendAt, if_neg, h]
        intro hc
        rw [hc] at hE
        rw [hE] at hs
        exact Bool.noConfusion hs
      · rw [if_pos hE, if_neg hN]
        exact h
    · rw [if_neg hE]
      exact h

theorem computeToDelete_eq_nil (mapping : List (String × List String)) (suffix : String)
    (rs : List DNSRecord)
    (h : ∀ r ∈ rs, strEndsWith r.name suffix = true →
      lookupIsNil mapping (strippedName suffix r.name) = false) :
    computeToDelete mapping suffix rs = [] := by
  unfold computeToDelete
  induction rs with
  | nil => rfl
  | cons r rs ih =>
    simp only [List.foldl_cons]
    have hstep : deleteStep mapping suffix [] r = [] := by
      unfold deleteStep
      by_cases hE : strEndsWith r.name suffix = true
      · rw [if_pos hE, if_neg]
        have := h r (List.mem_cons_self r rs) hE
        simp [this]
      · rw [if_neg hE]
    rw [hstep]
    exact ih (fun r' hr' => h r' (List.mem_cons_of_mem _ hr'))

end Sync

namespace Sync

theorem diffDesired_clean (byName : List (String × List DNSRecord)) (suffix : String) :
    ∀ (l : List (String × List String)) (acc : List (String × List String) × List (String × List String)),
    (∀ p ∈ l, ∃ r, lookup byName (p.1 ++ "." ++ suffix) = some [r] ∧
      ∃ rest, p.2 = r.content :: rest) →
    diffDesired byName suffix l acc = .ok acc := by
  intro l
  induction l with
  | nil =>
    intro acc _
    rfl
  | cons p rest ih =>
    intro acc h
    obtain ⟨hostname, ipv4s⟩ := p
    obtain ⟨r, hlook, rest', hip⟩ := h _ (List.mem_cons_self _ _)
    obtain ⟨tu, tc⟩ := acc
    simp only at hlook hip
    subst hip
    simp only [diffDesired, hlook]
    rw [if_neg (by simp)]
    exact ih _ (fun q hq => h q (List.mem_cons_of_mem _ hq))

theorem diffDesired_ambiguous (byName : List (String × List DNSRecord)) (suffix : String) :
    ∀ (l : List (String × List String)) (acc : List (String × List String) × List (String × List String)),
    (∀ p ∈ l, p.2 ≠ []) →
    (∃ p ∈ l, ∃ ll, lookup byName (p.1 ++ "." ++ suffix) = some ll ∧ 2 ≤ ll.length) →
    ∃ hn rn, diffDesired byName suffix l acc = .error (.multiRecordTODO hn rn) := by
  intro l
  induction l with
  | nil =>
    intro acc _ hamb
    simp at hamb
  | cons p rest ih =>
    intro acc hne hamb
    obtain ⟨hostname, ipv4s⟩ := p
    obtain ⟨tu, tc⟩ := acc
    cases hlook : lookup byName (hostname ++ "." ++ suffix) with
    | none =>
      simp only [diffDesired, hlook]
      apply ih
      · exact fun q hq => hne q (List.mem_cons_of_mem _ hq)
      · obtain ⟨q, hq, ll, hql, hlen⟩ := hamb
        rcases List.mem_cons.mp hq with hq0 | hq1
        · rw [hq0] at hql
          simp only at hql
          rw [hlook] at hql
          exact absurd hql (by simp)
        · exact ⟨q, hq1, ll, hql, hlen⟩
    | some ll =>
      cases ll with
      | nil =>
        exact ⟨hostname, hostname ++ "." ++ suffix, by simp only [diffDesired, hlook]⟩
      | cons r0 tail =>
        cases tail with
        | nil =>
          have hip : ipv4s ≠ [] := hne _ (List.mem_cons_self _ _)
          obtain ⟨a0, ip', rfl⟩ : ∃ a0 ip', ipv4s = a0 :: ip' := by
            cases ipv4s with
            | nil => exact absurd rfl hip
            | cons a b => exact ⟨a, b, rfl⟩
          have hrest : ∃ q ∈ rest, ∃ ll, lookup byName (q.1 ++ "." ++ suffix) = some ll ∧ 2 ≤ ll.length := by
            obtain ⟨q, hq, ll', hql, hlen⟩ := hamb
            rcases List.mem_cons.mp hq with hq0 | hq1
            · rw [hq0] at hql
              simp only at hql
              rw [hlook] at hql
              injection hql with hll
              rw [← hll] at hlen
              simp at hlen
            · exact ⟨q, hq1, ll', hql, hlen⟩
          have hne' : ∀ q ∈ rest, q.2 ≠ [] := fun q hq => hne q (List.mem_cons_of_mem _ hq)
          by_cases hc : r0.content ≠ a0
          · simp only [diffDesired, hlook, if_pos hc]
            exact ih _ hne' hrest
          · simp only [diffDesired, hlook, if_neg hc]
            exact ih _ hne' hrest
        | cons r1 t2 =>
          exact ⟨hostname, hostname ++ "." ++ suffix, by simp only [diffDesired, hlook]⟩

end Sync

namespace Sync

theorem keys_cons {α : Type} (k0 : String) (v0 : α) (rest : List (String × α)) :
    keys ((k0, v0) :: rest) = k0 :: keys rest := rfl

theorem lookup_eq_none_iff {α : Type} (m : List (String × α)) (k : String) :
    lookup m k = none ↔ k ∉ keys m := by
  induction m with
  | nil => simp [lookup, keys]
  | cons p rest ih =>
    obtain ⟨k0, v0⟩ := p
    rw [keys_cons]
    show (if k0 = k then some v0 else lookup rest k) = none ↔ k ∉ k0 :: keys rest
    by_cases h0 : k0 = k
    · subst h0
      simp
    · rw [if_neg h0, ih]
      constructor
      · intro hk hmem
        rcases List.mem_cons.mp hmem with he | hm
        · exact h0 he.symm
        · exact hk hm
      · intro hk hm
        exact hk (List.mem_cons_of_mem _ hm)

theorem keys_upsert {α : Type} (m : List (String × α)) (k : String) (v : α) :
    keys (upsert m k v) = if k ∈ keys m then keys m else keys m ++ [k] := by
  induction m with
  | nil => simp [upsert, keys]
  | cons p rest ih =>
    obtain ⟨k0, v0⟩ := p
    by_cases h0 : k0 = k
    · subst h0
      rw [show upsert ((k0, v0) :: rest) k0 v = (k0, v) :: rest from by simp [upsert]]
      rw [keys_cons, keys_cons, if_pos (List.mem_cons_self _ _)]
    · rw [show upsert ((k0, v0) :: rest) k v = (k0, v0) :: upsert rest k v from by
        simp [upsert, h0]]
      rw [keys_cons, keys_cons, ih]
      by_cases h1 : k ∈ keys rest
      · rw [if_pos h1, if_pos (List.mem_cons_of_mem _ h1)]
      · have hk : k ∉ k0 :: keys rest := by
          intro hmem
          rcases List.mem_cons.mp hmem with he | hm
          · exact h0 he.symm
          · exact h1 hm
        rw [if_neg h1, if_neg hk, List.cons_append]

theorem nodup_keys_upsert {α : Type} (m : List (String × α)) (k : String) (v : α)
    (h : (keys m).Nodup) : (keys (upsert m k v)).Nodup := by
  rw [keys_upsert]
  by_cases h1 : k ∈ keys m
  · rw [if_pos h1]
    exact h
  · rw [if_neg h1]
    simp [List.nodup_append, h, h1]

theorem buildStep_eq (uh : Bool) (tn : String) (m : List (String × List String))
    (d : TailnetDevice) :
    buildStep uh tn m d =
      if d.authorized = true ∧ denyListed (deviceName uh tn d) = false
      then upsert m (deviceName uh tn d) (v4Addresses d.addresses) else m := by
  unfold buildStep
  cases ha : d.authorized <;> cases hd : denyListed (deviceName uh tn d) <;> simp [ha, hd]

theorem nodup_keys_buildName2IPv4s (uh : Bool) (tn : String) (devices : List TailnetDevice) :
    (keys (buildName2IPv4s uh tn devices)).Nodup := by
  unfold buildName2IPv4s
  have main : ∀ (l : List TailnetDevice) (m : List (String × List String)),
      (keys m).Nodup → (keys (l.foldl (buildStep uh tn) m)).Nodup := by
    intro l
    induction l with
    | nil =>
      intro m hm
      simpa using hm
    | cons d l ih =>
      intro m hm
      simp only [List.foldl_cons]
      apply ih
      rw [buildStep_eq]
      by_cases hc : d.authorized = true ∧ denyListed (deviceName uh tn d) = false
      · rw [if_pos hc]
        exact nodup_keys_upsert _ _ _ hm
      · rw [if_neg hc]
        exact hm
  exact main devices [] (by simp [keys])

theorem lookup_foldl_buildStep_untouched (uh : Bool) (tn : String) (nm : String) :
    ∀ (l : List TailnetDevice) (m : List (String × List String)),
    (∀ d' ∈ l, d'.authorized = true → denyListed (deviceName uh tn d') = false →
      deviceName uh tn d' ≠ nm) →
    lookup (l.foldl (buildStep uh tn) m) nm = lookup m nm := by
  intro l
  induction l with
  | nil =>
    intro m _
    rfl
  | cons d l ih =>
    intro m h
    simp only [List.foldl_cons]
    rw [ih _ (fun d' hd' => h d' (List.mem_cons_of_mem _ hd'))]
    rw [buildStep_eq]
    by_cases hc : d.authorized = true ∧ denyListed (deviceName uh tn d) = false
    · rw [if_pos hc, lookup_upsert, if_neg (h d (List.mem_cons_self _ _) hc.1 hc.2)]
    · rw [if_neg hc]

theorem foldl_append_map_flatten {α β : Type} (g : α → List β) :
    ∀ (l : List α) (acc : List β),
    l.foldl (fun a x => a ++ g x) acc = acc ++ (l.map g).flatten := by
  intro l
  induction l with
  | nil =>
    intro acc
    simp
  | cons x xs ih =>
    intro acc
    simp [ih]

end Sync

namespace Sync

theorem mutationCalls_eq (cs : ChangeSet) :
    mutationCalls cs =
      (cs.toCreate.map (fun p => p.2.map (fun ipv4 => MutationCall.create "A" p.1 ipv4 1 false))).flatten
        ++ (cs.toDelete.map (fun p => p.2.map (fun rid => MutationCall.delete rid))).flatten := by
  unfold mutationCalls createCalls deleteCalls
  rw [foldl_append_map_flatten (fun p : String × List String =>
        p.2.map (fun ipv4 => MutationCall.create "A" p.1 ipv4 1 false)) cs.toCreate [],
      foldl_append_map_flatten (fun p : String × List String =>
        p.2.map (fun rid => MutationCall.delete rid)) cs.toDelete []]
  simp

/-- C4 (confirmed): with zero fetched records the run fails with the
zone-name configuration error, and no mutation calls are issued. -/
theorem c4_zero_records (dry uh : Bool) (tn sd : String) (devices : List TailnetDevice) :
    reconcile uh tn sd devices [] = .error .zoneNameTODO ∧
    run dry uh tn sd devices [] = ([], some .zoneNameTODO) := by
  refine ⟨rfl, ?_⟩
  unfold run
  rfl

/-- C8 (confirmed): a dry run whose reconciliation computed a change set
returns success and issues zero mutation calls. -/
theorem c8_dry_run (uh : Bool) (tn sd : String) (devices : List TailnetDevice)
    (records : List DNSRecord) (cs : ChangeSet)
    (hok : reconcile uh tn sd devices records = .ok cs) :
    run true uh tn sd devices records = ([], none) := by
  unfold run
  rw [hok]
  rfl

/-- C8 witness: a dry run over a roster and record list whose computed
change set is non-empty issues no calls and succeeds. -/
theorem c8_dry_run_witness :
    run true false "tailnet" "" [devNodeA] [recOutside] = ([], none) :=
  c8_dry_run false "tailnet" "" [devNodeA] [recOutside]
    ⟨[], [("node-a.tailnet.example.com", ["10.0.0.1"])], []⟩ (by decide)

/-- C9 (confirmed): in a non-dry run the issued calls are exactly one
create per address of every toCreate entry — type "A", ttl 1, proxying
disabled — followed by one delete per queued record id, and no update
call is ever issued. -/
theorem c9_mutation_fanout (uh : Bool) (tn sd : String) (devices : List TailnetDevice)
    (records : List DNSRecord) (cs : ChangeSet)
    (hok : reconcile uh tn sd devices records = .ok cs) :
    run false uh tn sd devices records = (mutationCalls cs, none) ∧
    mutationCalls cs =
      (cs.toCreate.map (fun p => p.2.map (fun ipv4 => MutationCall.create "A" p.1 ipv4 1 false))).flatten
        ++ (cs.toDelete.map (fun p => p.2.map (fun rid => MutationCall.delete rid))).flatten ∧
    ∀ c ∈ mutationCalls cs, isUpdate c = false := by
  refine ⟨?_, mutationCalls_eq cs, ?_⟩
  · unfold run
    rw [hok]
    rfl
  · intro c hc
    rw [mutationCalls_eq] at hc
    rcases List.mem_append.mp hc with h | h
    · obtain ⟨l, hl, hcl⟩ := List.mem_flatten.mp h
      obtain ⟨p, _, rfl⟩ := List.mem_map.mp hl
      obtain ⟨ip, _, rfl⟩ := List.mem_map.mp hcl
      rfl
    · obtain ⟨l, hl, hcl⟩ := List.mem_flatten.mp h
      obtain ⟨p, _, rfl⟩ := List.mem_map.mp hl
      obtain ⟨rid, _, rfl⟩ := List.mem_map.mp hcl
      rfl

/-- C9 witness: concrete non-dry run issuing exactly one single-address
"A"-record create call and no update call. -/
theorem c9_mutation_fanout_witness :
    run false false "tailnet" "" [devNodeA] [recOutside] =
      (mutationCalls ⟨[], [("node-a.tailnet.example.com", ["10.0.0.1"])], []⟩, none) ∧
    mutationCalls (⟨[], [("node-a.tailnet.example.com", ["10.0.0.1"])], []⟩ : ChangeSet) =
      (([(("node-a.tailnet.example.com" : String), ["10.0.0.1"])]).map
          (fun p => p.2.map (fun ipv4 => MutationCall.create "A" p.1 ipv4 1 false))).flatten
        ++ (([] : List (String × List String)).map
          (fun p => p.2.map (fun rid => MutationCall.delete rid))).flatten ∧
    ∀ c ∈ mutationCalls (⟨[], [("node-a.tailnet.example.com", ["10.0.0.1"])], []⟩ : ChangeSet),
      isUpdate c = false :=
  c9_mutation_fanout false "tailnet" "" [devNodeA] [recOutside]
    ⟨[], [("node-a.tailnet.example.com", ["10.0.0.1"])], []⟩ (by decide)

/-- C10 (code_bug): a device whose filtered IPv4 list is empty and whose
record name matches exactly one existing record makes the diff access the
first desired address out of bounds — the Go code panics instead of
completing, modelled as the `panicIndexOutOfRange` outcome. -/
theorem c10_first_address_panic :
    reconcile false "tailnet" "" [devNodeANoV4] [recNodeA] =
      .error (.panicIndexOutOfRange "node-a") ∧
    run false false "tailnet" "" [devNodeANoV4] [recNodeA] =
      ([], some (.panicIndexOutOfRange "node-a")) := by
  decide

/-- C3 (counterexample): with the empty record list the claimed scenario
does not succeed — reconciliation returns the zone-name error instead of
producing a toCreate entry. -/
theorem c3_counterexample :
    reconcile false "tailnet" "" [devNodeA] [] = .error .zoneNameTODO := rfl

/-- C3 (corrected): with one existing record outside the suffix supplying
zone name `tailnet.example.com`, the scenario succeeds and yields exactly
toCreate = {node-a.tailnet.example.com ↦ [10.0.0.1]} and an empty
toDelete. -/
theorem c3_scenario_amended :
    reconcile false "tailnet" "" [devNodeA] [recOutside] =
      .ok ⟨[], [("node-a.tailnet.example.com", ["10.0.0.1"])], []⟩ ∧
    run false false "tailnet" "" [devNodeA] [recOutside] =
      ([MutationCall.create "A" "node-a.tailnet.example.com" "10.0.0.1" 1 false], none) := by
  decide

end Sync

namespace Sync

/-- C1 (counterexample): a device with zero surviving IPv4 addresses
occupies a key in the desired mapping, yet the existing record whose
stripped name is that key is still queued for deletion, because the Go
nil-test also fires on a present key with an empty list. -/
theorem c1_counterexample :
    (lookup (buildName2IPv4s false "tailnet" [devNodeANoV4]) "node-a").isSome = true ∧
    strippedName (recordSuffix "" "tailnet.example.com") recNodeA.name = "node-a" ∧
    recNodeA.id ∈ delIds
      (computeToDelete (buildName2IPv4s false "tailnet" [devNodeANoV4])
        (recordSuffix "" "tailnet.example.com") [recNodeA]) recNodeA.name := by
  decide

/-- C1 (corrected): an existing record carrying the suffix is queued for
deletion exactly when the stripped identifier is absent from the desired
mapping or maps to an empty address list; a key with an empty list does
not protect its record. -/
theorem c1_delete_iff (mapping : List (String × List String)) (suffix : String)
    (records : List DNSRecord) (r : DNSRecord) (hr : r ∈ records)
    (hs : strEndsWith r.name suffix = true) :
    r.id ∈ delIds (computeToDelete mapping suffix records) r.name ↔
      lookupIsNil mapping (strippedName suffix r.name) = true := by
  unfold computeToDelete
  rw [mem_delIds_foldl]
  constructor
  · rintro (h0 | ⟨r', _, hname, hid, _, hN⟩)
    · simp [delIds, lookup] at h0
    · rw [hname] at hN
      exact hN
  · intro hN
    exact Or.inr ⟨r, hr, rfl, rfl, hs, hN⟩

/-- C1 witness: concrete instance of the deletion criterion, with a
populated identifier key whose record is consequently not queued. -/
theorem c1_delete_iff_witness :
    recNodeA.id ∈ delIds
        (computeToDelete (buildName2IPv4s false "tailnet" [devNodeA])
          (recordSuffix "" "tailnet.example.com") [recNodeA]) recNodeA.name ↔
      lookupIsNil (buildName2IPv4s false "tailnet" [devNodeA])
        (strippedName (recordSuffix "" "tailnet.example.com") recNodeA.name) = true :=
  c1_delete_iff (buildName2IPv4s false "tailnet" [devNodeA])
    (recordSuffix "" "tailnet.example.com") [recNodeA] recNodeA (by decide) (by decide)

/-- C6 (confirmed): a successful reconciliation never queues a deletion
under the name of a record that does not carry the configured suffix. -/
theorem c6_suffix_protection (uh : Bool) (tn sd : String) (devices : List TailnetDevice)
    (r0 : DNSRecord) (rs : List DNSRecord) (cs : ChangeSet) (r : DNSRecord)
    (hok : reconcile uh tn sd devices (r0 :: rs) = .ok cs)
    (_hr : r ∈ r0 :: rs)
    (hs : strEndsWith r.name (recordSuffix sd r0.zoneName) = false) :
    lookup cs.toDelete r.name = none := by
  have hdel : cs.toDelete =
      computeToDelete (buildName2IPv4s uh tn devices) (recordSuffix sd r0.zoneName) (r0 :: rs) := by
    cases hd : diffDesired (computeRecordsByName (r0 :: rs)) (recordSuffix sd r0.zoneName)
        (buildName2IPv4s uh tn devices) ([], []) with
    | ok acc =>
      obtain ⟨tu, tc⟩ := acc
      simp only [reconcile, hd] at hok
      injection hok with h
      rw [← h]
    | error e =>
      simp only [reconcile, hd] at hok
      exact Except.noConfusion hok
  rw [hdel]
  unfold computeToDelete
  exact lookup_foldl_deleteStep_none _ _ _ _ hs [] rfl

/-- C6 witness: concrete successful run in which the record outside the
suffix has no deletion entry. -/
theorem c6_suffix_protection_witness :
    lookup (ChangeSet.toDelete ⟨[], [("node-a.tailnet.example.com", ["10.0.0.1"])], []⟩)
      recOutside.name = none :=
  c6_suffix_protection false "tailnet" "" [devNodeA] recOutside []
    ⟨[], [("node-a.tailnet.example.com", ["10.0.0.1"])], []⟩ recOutside
    (by decide) (by decide) (by decide)

/-- C7 (counterexample): two authorized devices normalize to the same
identifier; the first one satisfies every premise of the claim yet the
mapping holds the second device's address list, not the first's. -/
theorem c7_counterexample :
    devDup1.authorized = true ∧
    denyListed (deviceName false "tailnet" devDup1) = false ∧
    v4Addresses devDup1.addresses = ["10.0.0.1"] ∧
    lookup (buildName2IPv4s false "tailnet" [devDup1, devDup2])
      (deviceName false "tailnet" devDup1) = some ["10.0.0.2"] := by
  decide

/-- C7 (corrected): an authorized device whose identifier is not
deny-listed and that is not shadowed by a later authorized, non-deny-listed
device with the same identifier appears in the desired mapping, whose keys
are duplicate-free, mapped to the sub-list of its addresses that parse as
IPv4 — for any surrounding roster order. -/
theorem c7_desired_mapping (uh : Bool) (tn : String) (pre post : List TailnetDevice)
    (d : TailnetDevice)
    (hauth : d.authorized = true)
    (hdeny : denyListed (deviceName uh tn d) = false)
    (hlast : ∀ d' ∈ post, d'.authorized = true → denyListed (deviceName uh tn d') = false →
      deviceName uh tn d' ≠ deviceName uh tn d) :
    lookup (buildName2IPv4s uh tn (pre ++ d :: post)) (deviceName uh tn d) =
      some (v4Addresses d.addresses) ∧
    (keys (buildName2IPv4s uh tn (pre ++ d :: post))).Nodup := by
  constructor
  · unfold buildName2IPv4s
    rw [List.foldl_append, List.foldl_cons]
    rw [lookup_foldl_buildStep_untouched uh tn _ post _ hlast]
    rw [buildStep_eq, if_pos ⟨hauth, hdeny⟩, lookup_upsert, if_pos rfl]
  · exact nodup_keys_buildName2IPv4s uh tn _

/-- C7 witness: concrete roster in which a later unauthorized duplicate
does not shadow the authorized device. -/
theorem c7_desired_mapping_witness :
    lookup (buildName2IPv4s false "tailnet" ([] ++ devNodeA :: [devNodeAUnauth]))
        (deviceName false "tailnet" devNodeA) = some (v4Addresses devNodeA.addresses) ∧
    (keys (buildName2IPv4s false "tailnet" ([] ++ devNodeA :: [devNodeAUnauth]))).Nodup :=
  c7_desired_mapping false "tailnet" [] [devNodeAUnauth] devNodeA
    (by decide) (by decide) (by decide)

end Sync

namespace Sync

/-- C2 (counterexample): two existing records share the name `x.zone`,
which matches no desired identifier; the run does not fail and issues two
delete calls. -/
theorem c2_counterexample :
    recX1.name = recX2.name ∧
    run false false "ts" "" [] [recX1, recX2] =
      ([MutationCall.delete "r1", MutationCall.delete "r2"], none) := by
  decide

/-- C2 (corrected): when some desired identifier's record name is shared
by at least two existing records (and every desired address list is
non-empty, so the run cannot hit the empty-list panic first), the run
fails with the multi-record ambiguity error and issues no mutation
calls. -/
theorem c2_ambiguity_aborts (dry uh : Bool) (tn sd : String) (devices : List TailnetDevice)
    (r0 : DNSRecord) (rs : List DNSRecord)
    (hne : ∀ p ∈ buildName2IPv4s uh tn devices, p.2 ≠ [])
    (hamb : ∃ p ∈ buildName2IPv4s uh tn devices,
      2 ≤ ((r0 :: rs).filter
        (fun rec => decide (rec.name = p.1 ++ "." ++ recordSuffix sd r0.zoneName))).length) :
    ∃ hn rn, reconcile uh tn sd devices (r0 :: rs) = .error (.multiRecordTODO hn rn) ∧
      run dry uh tn sd devices (r0 :: rs) = ([], some (.multiRecordTODO hn rn)) := by
  have hamb' : ∃ p ∈ buildName2IPv4s uh tn devices, ∃ ll,
      lookup (computeRecordsByName (r0 :: rs))
        (p.1 ++ "." ++ recordSuffix sd r0.zoneName) = some ll ∧ 2 ≤ ll.length := by
    obtain ⟨p, hp, hlen⟩ := hamb
    have hfil : ((r0 :: rs).filter
        (fun rec => decide (rec.name = p.1 ++ "." ++ recordSuffix sd r0.zoneName))) ≠ [] := by
      intro h
      rw [h] at hlen
      simp at hlen
    refine ⟨p, hp, _, ?_, hlen⟩
    unfold computeRecordsByName
    rw [lookup_foldl_groupStep]
    simp only [lookup]
    rw [if_neg (by simpa using hfil)]
  obtain ⟨hn, rn, herr⟩ := diffDesired_ambiguous (computeRecordsByName (r0 :: rs))
    (recordSuffix sd r0.zoneName) (buildName2IPv4s uh tn devices) ([], []) hne hamb'
  have hrec : reconcile uh tn sd devices (r0 :: rs) = .error (.multiRecordTODO hn rn) := by
    simp only [reconcile, herr]
  refine ⟨hn, rn, hrec, ?_⟩
  unfold run
  rw [hrec]

/-- C2 witness: a roster whose only identifier matches two existing
records makes the run abort with the ambiguity error. -/
theorem c2_ambiguity_aborts_witness :
    ∃ hn rn, reconcile false "tailnet" "" [devNodeA] (recNodeA :: [recNodeADup]) =
        .error (.multiRecordTODO hn rn) ∧
      run false false "tailnet" "" [devNodeA] (recNodeA :: [recNodeADup]) =
        ([], some (.multiRecordTODO hn rn)) :=
  c2_ambiguity_aborts false false "tailnet" "" [devNodeA] recNodeA [recNodeADup]
    (by decide) (by decide)

/-- C5 (confirmed): when every desired identifier has exactly one existing
record, named identifier-dot-suffix with content equal to the identifier's
first address, and every suffix-carrying record strips to a present
identifier, reconciliation yields empty toCreate, empty toDelete and empty
toUpdate. -/
theorem c5_idempotence (uh : Bool) (tn sd : String) (devices : List TailnetDevice)
    (r0 : DNSRecord) (rs : List DNSRecord)
    (h1 : ∀ p ∈ buildName2IPv4s uh tn devices, p.2 ≠ [] ∧
      ((r0 :: rs).filter
        (fun rec => decide (rec.name = p.1 ++ "." ++ recordSuffix sd r0.zoneName))).map
          (fun rec => rec.content) = [p.2.headD ""])
    (h2 : ∀ rec ∈ r0 :: rs, strEndsWith rec.name (recordSuffix sd r0.zoneName) = true →
      (lookup (buildName2IPv4s uh tn devices)
        (strippedName (recordSuffix sd r0.zoneName) rec.name)).isSome = true) :
    reconcile uh tn sd devices (r0 :: rs) = .ok ⟨[], [], []⟩ := by
  have hclean : ∀ p ∈ buildName2IPv4s uh tn devices, ∃ r,
      lookup (computeRecordsByName (r0 :: rs))
        (p.1 ++ "." ++ recordSuffix sd r0.zoneName) = some [r] ∧
      ∃ rest, p.2 = r.content :: rest := by
    intro p hp
    obtain ⟨hne, hmap⟩ := h1 p hp
    cases hfil : ((r0 :: rs).filter
        (fun rec => decide (rec.name = p.1 ++ "." ++ recordSuffix sd r0.zoneName))) with
    | nil =>
      rw [hfil] at hmap
      simp at hmap
    | cons r tail =>
      cases tail with
      | nil =>
        refine ⟨r, ?_, ?_⟩
        · unfold computeRecordsByName
          rw [lookup_foldl_groupStep]
          simp only [lookup]
          rw [hfil]
          rfl
        · cases hq : p.2 with
          | nil => exact absurd hq hne
          | cons a t =>
            rw [hfil, hq] at hmap
            simp at hmap
            exact ⟨t, by rw [hmap]⟩
      | cons r2 t2 =>
        rw [hfil] at hmap
        simp at hmap
  have hdiff := diffDesired_clean (computeRecordsByName (r0 :: rs))
    (recordSuffix sd r0.zoneName) (buildName2IPv4s uh tn devices) ([], []) hclean
  have hdel : computeToDelete (buildName2IPv4s uh tn devices)
      (recordSuffix sd r0.zoneName) (r0 :: rs) = [] := by
    apply computeToDelete_eq_nil
    intro r hr hsfx
    have hsome := h2 r hr hsfx
    cases hl : lookup (buildName2IPv4s uh tn devices)
        (strippedName (recordSuffix sd r0.zoneName) r.name) with
    | none =>
      rw [hl] at hsome
      simp at hsome
    | some v =>
      have hmem := lookup_mem hl
      have hv := (h1 _ hmem).1
      unfold lookupIsNil
      rw [hl]
      simpa using hv
  simp only [reconcile, hdiff, hdel]

/-- C5 witness: a roster and record list that already agree produce the
empty change set. -/
theorem c5_idempotence_witness :
    reconcile false "tailnet" "" [devNodeA] (recNodeA :: []) = .ok ⟨[], [], []⟩ :=
  c5_idempotence false "tailnet" "" [devNodeA] recNodeA [] (by decide) (by decide)

end Sync
